import Mathlib

/-!
Verification of the go-saga execution coordinator (coordinator.go).

The coordinator drives a Saga — an ordered list of steps, each pairing a
forward action with a compensation callable — through forward execution,
appending a log event to an append-only store at every transition, and on a
step failure it compensates the already-executed steps in reverse order.

Embedding conventions:
* Go errors are `Option GoErr` (`none` = nil).
* Go panics (`log.Panicln` inside `checkErr`, `panic(err)` on a failed
  compensation, and panics raised by the reflect package) are modelled as an
  explicit `Panic` outcome threaded through every operation; a function
  returns `(state, some p)` when the Go code panics with `p`.
* Step callables are arbitrary values (`interface{}` in Go); `FuncObj`
  distinguishes function values (with their reflected arity and first
  parameter type) from non-function values, mirroring what `getFuncValue`
  inspects via reflection.
* Timestamps (`time.Now()`) are external nondeterminism and are not
  modelled; no claim concerns them.
* Observable behaviour is recorded in an event trace: successful and failed
  log appends, action invocations and compensation invocations, each with
  the exact argument and result lists.
-/

namespace GoSaga

/-- Go error values. The coordinator only ever propagates the very error
value it received (from an action, a compensation or the log store), so
modelling errors by value is faithful. -/
abbrev GoErr := String

/-- A `reflect.Value` produced by a step callable: either a plain
non-nilable value (modelled as an integer) or an error-typed value
(`rerr none` is a nil error interface). -/
inductive RVal where
  | rint (n : Int)
  | rerr (e : Option GoErr)
deriving Repr, DecidableEq

/-- An argument passed to a callable: the execution context
(`reflect.ValueOf(c.ctx)`) or a previously returned `reflect.Value`. -/
inductive Arg where
  | actx
  | rv (v : RVal)
deriving Repr, DecidableEq

/-- A Go function value as seen through reflection: its number of declared
parameters, whether the first declared parameter is exactly
`context.Context`, and its behaviour on an argument list. -/
structure GoFunc where
  numIn : Nat
  firstIsCtx : Bool
  impl : List Arg → List RVal

/-- An arbitrary registered object (`interface{}` in Go): either a function
value or some non-function value. -/
inductive FuncObj where
  | fn (f : GoFunc)
  | nonFunc

/-- A Go panic, as raised by the coordinator: `checkErrPanic` models
`log.Panicln` inside `checkErr` (used for log-store faults and for the two
configuration errors of `getFuncValue`), `compensationError` models the
bare `panic(err)` raised when a compensation returns a non-nil error, and
`reflectPanic` models panics raised inside the reflect package. -/
inductive Panic where
  | checkErrPanic (e : GoErr)
  | reflectPanic (msg : String)
  | compensationError (e : GoErr)
deriving Repr, DecidableEq

/-- Modelled from the spec: the log event kinds (`LogType*` constants are
declared outside coordinator.go, in a file not under src/). -/
inductive LogType where
  | startSaga
  | sagaStepExec
  | sagaAbort
  | sagaStepCompensate
  | sagaComplete
deriving Repr, DecidableEq

/-- Modelled from the spec: one log event (the `Log` struct is declared
outside coordinator.go). Fields are those coordinator.go populates:
ExecutionID, saga Name, event Type, optional StepNumber, optional StepName.
The Time field is omitted (external clock, no claim concerns it). -/
structure Log where
  executionID : String
  name : String
  type : LogType
  stepNumber : Option Nat
  stepName : Option String
deriving Repr, DecidableEq

/-- Modelled from the spec: one step of a saga (declared outside
coordinator.go): a name, a forward action and a compensation, both
arbitrary registered objects. -/
structure Step where
  Name : String
  Func : FuncObj
  CompensateFunc : FuncObj

/-- Modelled from the spec: a saga (declared outside coordinator.go): a
name and an ordered list of steps. -/
structure Saga where
  Name : String
  steps : List Step

/-- Modelled from the spec: the log store exposes a single append
operation returning an error on a storage fault. The store is modelled as
a function of the events successfully appended so far and the event being
appended. -/
abbrev Store := List Log → Log → Option GoErr

/-- Modelled from the spec: the terminal outcome of one run (declared
outside coordinator.go): nil on full success, otherwise the error that
caused the abort. -/
structure Result where
  Err : Option GoErr
deriving Repr, DecidableEq

/-- The immutable per-run environment of the coordinator: the execution
identity and the log store (fields of `ExecutionCoordinator` that no
statement of coordinator.go ever assigns to). -/
structure CoordEnv where
  executionID : String
  logStore : Store

/-- One observable event of a run. -/
inductive Ev where
  | append (l : Log)
  | appendFail (l : Log) (e : GoErr)
  | actionCall (i : Nat) (args : List Arg) (ret : List RVal)
  | compCall (i : Nat) (args : List Arg) (ret : List RVal)
deriving Repr, DecidableEq

/-- The mutable state of an `ExecutionCoordinator` during one run: the
saga (held by pointer in Go; kept in the state so that its preservation is
a theorem, not a modelling assumption), the per-step recorded results and
compensation targets, the abort flag, the terminal error, and the trace of
observable events so far. -/
structure St where
  saga : Saga
  returnedValuesFromFunc : List (List RVal)
  toCompensate : List GoFunc
  aborted : Bool
  err : Option GoErr
  trace : List Ev

/-- Fresh coordinator state, as built by `NewCoordinator`. -/
def St.init (sg : Saga) : St :=
  ⟨sg, [], [], false, none, []⟩

/-- The log events successfully appended so far, in order. -/
def logsOf (t : List Ev) : List Log :=
  t.filterMap fun e =>
    match e with
    | .append l => some l
    | _ => none

/-- Placeholder step for out-of-range indexing (never reached: every index
used by coordinator.go is in range). -/
def dummyStep : Step :=
  ⟨"", FuncObj.nonFunc, FuncObj.nonFunc⟩

/-- Placeholder function value for out-of-range indexing (never reached). -/
def dummyFunc : GoFunc :=
  ⟨0, false, fun _ => []⟩

/-- `checkErr(c.logStore.AppendLog(l))`: ask the store to append `l`; on a
storage fault `checkErr` panics via `log.Panicln` with the store's error. -/
def appendLog (env : CoordEnv) (st : St) (l : Log) : St × Option Panic :=
  match env.logStore (logsOf st.trace) l with
  | none => ({ st with trace := st.trace ++ [Ev.append l] }, none)
  | some e => ({ st with trace := st.trace ++ [Ev.appendFail l e] },
               some (Panic.checkErrPanic e))

/-- `getFuncValue`: reflect on a registered object; panic (via `checkErr`)
when it is not a function value or its first declared parameter is not
`context.Context`. -/
def getFuncValue (obj : FuncObj) : Except Panic GoFunc :=
  match obj with
  | .nonFunc => .error (.checkErrPanic "registered object must be a func")
  | .fn f =>
    if f.numIn < 1 ∨ f.firstIsCtx = false then
      .error (.checkErrPanic "first argument must use context.ctx")
    else
      .ok f

/-- `reflect.Value.Call`: invoking a function value with an argument list;
reflect panics when the arity does not match. (Per-argument type mismatch
panics are not modelled; no claim exercises them.) -/
def callFn (f : GoFunc) (args : List Arg) : Except Panic (List RVal) :=
  if args.length = f.numIn then
    .ok (f.impl args)
  else
    .error (.reflectPanic "reflect: Call with wrong number of arguments")

/-- `isReturnError`: a non-empty result list whose last element is a
non-nil error yields that error; an empty result list never fails. `IsNil`
on a non-nilable last value panics inside reflect. -/
def isReturnError (result : List RVal) : Except Panic (Option GoErr) :=
  match result.getLast? with
  | none => .ok none
  | some (.rerr e) => .ok e
  | some (.rint _) => .error (.reflectPanic "reflect: IsNil of non-nilable value")

/-- `addParams`: append the recorded forward results minus the trailing
error slot; a recorded list of length ≤ 1 contributes nothing. -/
def addParams (values : List Arg) (returned : List RVal) : List Arg :=
  if returned.length > 1 then
    values ++ (returned.take (returned.length - 1)).map Arg.rv
  else
    values

/-- The `SagaStarted` event Play appends. -/
def startedLog (eid : String) (sg : Saga) : Log :=
  ⟨eid, sg.Name, LogType.startSaga, none, none⟩

/-- The `StepStarted` event execStep appends for step `i`. -/
def stepStartedLog (eid : String) (sg : Saga) (i : Nat) : Log :=
  ⟨eid, sg.Name, LogType.sagaStepExec, some i, some (sg.steps.getD i dummyStep).Name⟩

/-- The `SagaAborted` event abort appends, carrying the number of steps to
compensate. -/
def abortedLog (eid : String) (sg : Saga) (n : Nat) : Log :=
  ⟨eid, sg.Name, LogType.sagaAbort, some n, none⟩

/-- The `StepCompensating` event compensateStep appends for step `i`. -/
def compensatingLog (eid : String) (sg : Saga) (i : Nat) : Log :=
  ⟨eid, sg.Name, LogType.sagaStepCompensate, some i, some (sg.steps.getD i dummyStep).Name⟩

/-- The `SagaCompleted` event Play appends. -/
def completedLog (eid : String) (sg : Saga) : Log :=
  ⟨eid, sg.Name, LogType.sagaComplete, none, none⟩

/-- `compensateStep(i)`: append a `StepCompensating` event, rebuild the
argument list from the recorded forward results of step `i`, invoke the
recorded compensation, and panic with the compensation's error if it
returns one. -/
def compensateStep (env : CoordEnv) (st : St) (i : Nat) : St × Option Panic :=
  match appendLog env st (compensatingLog env.executionID st.saga i) with
  | (st1, some p) => (st1, some p)
  | (st1, none) =>
    let params := addParams [Arg.actx] (st1.returnedValuesFromFunc.getD i [])
    let compensateFunc := st1.toCompensate.getD i dummyFunc
    match callFn compensateFunc params with
    | .error p => (st1, some p)
    | .ok res =>
      let st2 := { st1 with trace := st1.trace ++ [Ev.compCall i params res] }
      match isReturnError res with
      | .error p => (st2, some p)
      | .ok none => (st2, none)
      | .ok (some e) => (st2, some (Panic.compensationError e))

/-- The compensation loop of `abort`: `for i := n - 1; i >= 0; i--`. -/
def compLoop (env : CoordEnv) : Nat → St → St × Option Panic
  | 0, st => (st, none)
  | n + 1, st =>
    match compensateStep env st n with
    | (st1, none) => compLoop env n st1
    | (st1, some p) => (st1, some p)

/-- `abort`: append a `SagaAborted` event carrying `len(c.toCompensate)`,
set the aborted flag, then compensate every recorded step in reverse
order. -/
def abort (env : CoordEnv) (st : St) : St × Option Panic :=
  let stepsToCompensate := st.toCompensate.length
  match appendLog env st (abortedLog env.executionID st.saga stepsToCompensate) with
  | (st1, some p) => (st1, some p)
  | (st1, none) => compLoop env stepsToCompensate { st1 with aborted := true }

/-- `execStep(i)`: skip when already aborted; otherwise append a
`StepStarted` event, validate and invoke the step's action with the
context as sole argument, validate and record the compensation and the
returned values (before inspecting the trailing error), and on a non-nil
trailing error set the terminal error and abort. -/
def execStep (env : CoordEnv) (st : St) (i : Nat) : St × Option Panic :=
  if st.aborted then
    (st, none)
  else
    match appendLog env st (stepStartedLog env.executionID st.saga i) with
    | (st1, some p) => (st1, some p)
    | (st1, none) =>
      match getFuncValue (st1.saga.steps.getD i dummyStep).Func with
      | .error p => (st1, some p)
      | .ok fv =>
        match callFn fv [Arg.actx] with
        | .error p => (st1, some p)
        | .ok resp =>
          let st2 := { st1 with trace := st1.trace ++ [Ev.actionCall i [Arg.actx] resp] }
          match getFuncValue (st2.saga.steps.getD i dummyStep).CompensateFunc with
          | .error p => (st2, some p)
          | .ok cv =>
            let st3 := { st2 with
              toCompensate := st2.toCompensate ++ [cv],
              returnedValuesFromFunc := st2.returnedValuesFromFunc ++ [resp] }
            match isReturnError resp with
            | .error p => (st3, some p)
            | .ok none => (st3, none)
            | .ok (some e) => abort env { st3 with err := some e }

/-- The forward loop of `Play`: `for i := 0; i < len(c.saga.steps); i++`. -/
def stepsLoop (env : CoordEnv) : List Nat → St → St × Option Panic
  | [], st => (st, none)
  | i :: rest, st =>
    match execStep env st i with
    | (st1, none) => stepsLoop env rest st1
    | (st1, some p) => (st1, some p)

/-- `Play`: append `SagaStarted`, run every step in order, append
`SagaCompleted` (coordinator.go appends it unconditionally, aborted or
not), and return a `Result` carrying `c.err`. The second component is
`Except.error p` when the Go code panics with `p` instead of returning. -/
def Play (env : CoordEnv) (sg : Saga) : St × Except Panic Result :=
  let st0 := St.init sg
  match appendLog env st0 (startedLog env.executionID st0.saga) with
  | (st1, some p) => (st1, .error p)
  | (st1, none) =>
    match stepsLoop env (List.range st1.saga.steps.length) st1 with
    | (st2, some p) => (st2, .error p)
    | (st2, none) =>
      match appendLog env st2 (completedLog env.executionID st2.saga) with
      | (st3, some p) => (st3, .error p)
      | (st3, none) => (st3, .ok ⟨st3.err⟩)

/-- Indices of action invocations in a trace, in invocation order. -/
def actionCallIdxs (t : List Ev) : List Nat :=
  t.filterMap fun e =>
    match e with
    | .actionCall i _ _ => some i
    | _ => none

/-- Indices of compensation invocations in a trace, in invocation order. -/
def compCallIdxs (t : List Ev) : List Nat :=
  t.filterMap fun e =>
    match e with
    | .compCall i _ _ => some i
    | _ => none

/-- Compensation invocations with their argument lists, in invocation
order. -/
def compCallArgs (t : List Ev) : List (Nat × List Arg) :=
  t.filterMap fun e =>
    match e with
    | .compCall i a _ => some (i, a)
    | _ => none

/-- The action of step `i` of `sg` passes the reflective shape checks: it
is the function value `aF i`, declared with exactly one parameter, the
execution context. -/
def ActionRuns (sg : Saga) (aF : Nat → GoFunc) (i : Nat) : Prop :=
  (sg.steps.getD i dummyStep).Func = FuncObj.fn (aF i) ∧
  (aF i).numIn = 1 ∧ (aF i).firstIsCtx = true

/-- Step `i` of `sg` passes both reflective shape checks: its action is the
function value `aF i` taking exactly the context, and its compensation
validates to the function value `cF i`. -/
def StepRuns (sg : Saga) (aF cF : Nat → GoFunc) (i : Nat) : Prop :=
  ActionRuns sg aF i ∧
  getFuncValue (sg.steps.getD i dummyStep).CompensateFunc = Except.ok (cF i)

/-- The trace fragment produced by a forward pass through the given step
indices, each step succeeding. -/
def fwdEvs (eid : String) (sg : Saga) (aF : Nat → GoFunc) : List Nat → List Ev
  | [] => []
  | i :: rest =>
    Ev.append (stepStartedLog eid sg i) ::
      Ev.actionCall i [Arg.actx] ((aF i).impl [Arg.actx]) ::
        fwdEvs eid sg aF rest

theorem execStep_ok (env : CoordEnv) (aF cF : Nat → GoFunc) (i : Nat) (st : St)
    (Hstore : ∀ ls l, env.logStore ls l = none)
    (Hab : st.aborted = false)
    (H : StepRuns st.saga aF cF i)
    (Herr : isReturnError ((aF i).impl [Arg.actx]) = Except.ok none) :
    execStep env st i =
      ({ st with
          trace := st.trace ++ fwdEvs env.executionID st.saga aF [i],
          toCompensate := st.toCompensate ++ [cF i],
          returnedValuesFromFunc :=
            st.returnedValuesFromFunc ++ [(aF i).impl [Arg.actx]] }, none) := by
  obtain ⟨⟨hf, hn, hc⟩, hcomp⟩ := H
  have hg : getFuncValue (FuncObj.fn (aF i)) = Except.ok (aF i) := by
    simp [getFuncValue, hn, hc]
  have hcall : callFn (aF i) [Arg.actx] = Except.ok ((aF i).impl [Arg.actx]) := by
    simp [callFn, hn]
  simp only [List.getD_eq_getElem?_getD] at hf hcomp
  simp [execStep, Hab, appendLog, Hstore, hf, hg, hcall, hcomp, Herr, fwdEvs,
    List.append_assoc]

theorem stepsLoop_aborted (env : CoordEnv) (is : List Nat) (st : St)
    (Hab : st.aborted = true) :
    stepsLoop env is st = (st, none) := by
  induction is with
  | nil => simp [stepsLoop]
  | cons i rest ih =>
    simp [stepsLoop, execStep, Hab, ih]

theorem stepsLoop_split (env : CoordEnv) (is1 is2 : List Nat) (st : St) :
    stepsLoop env (is1 ++ is2) st =
      match stepsLoop env is1 st with
      | (st1, none) => stepsLoop env is2 st1
      | (st1, some p) => (st1, some p) := by
  induction is1 generalizing st with
  | nil => simp [stepsLoop]
  | cons i rest ih =>
    simp only [List.cons_append, stepsLoop]
    cases h : execStep env st i with
    | mk st1 po =>
      cases po with
      | none => simp [ih]
      | some p => simp

theorem stepsLoop_ok (env : CoordEnv) (aF cF : Nat → GoFunc) (is : List Nat) (st : St)
    (Hstore : ∀ ls l, env.logStore ls l = none)
    (Hab : st.aborted = false)
    (Hgood : ∀ i ∈ is, StepRuns st.saga aF cF i ∧
      isReturnError ((aF i).impl [Arg.actx]) = Except.ok none) :
    stepsLoop env is st =
      ({ st with
          trace := st.trace ++ fwdEvs env.executionID st.saga aF is,
          toCompensate := st.toCompensate ++ is.map cF,
          returnedValuesFromFunc :=
            st.returnedValuesFromFunc ++ is.map (fun i => (aF i).impl [Arg.actx]) }, none) := by
  induction is generalizing st with
  | nil => simp [stepsLoop, fwdEvs]
  | cons i rest ih =>
    obtain ⟨h1, h2⟩ := Hgood i (List.mem_cons_self i rest)
    have hrest := ih ({ st with
        trace := st.trace ++ fwdEvs env.executionID st.saga aF [i],
        toCompensate := st.toCompensate ++ [cF i],
        returnedValuesFromFunc := st.returnedValuesFromFunc ++ [(aF i).impl [Arg.actx]] })
      Hab (fun j hj => Hgood j (List.mem_cons_of_mem i hj))
    rw [stepsLoop, execStep_ok env aF cF i st Hstore Hab h1 h2]
    simp only [hrest]
    simp [fwdEvs, List.append_assoc]

/-- The argument list `compensateStep` rebuilds for step `i` from the
recorded forward results `R`: the context followed by the recorded values
minus the trailing error slot. -/
def compArgsOf (R : List (List RVal)) (i : Nat) : List Arg :=
  addParams [Arg.actx] (R.getD i [])

/-- The recorded data for step `i` (results `R`, compensation targets `T`)
lets its compensation be invoked (matching arity) and return a nil
error. -/
def CompOk (R : List (List RVal)) (T : List GoFunc) (i : Nat) : Prop :=
  (T.getD i dummyFunc).numIn = (compArgsOf R i).length ∧
  isReturnError ((T.getD i dummyFunc).impl (compArgsOf R i)) = Except.ok none

/-- The recorded data for step `i` lets its compensation be invoked but it
returns the error `ec`. -/
def CompFails (R : List (List RVal)) (T : List GoFunc) (i : Nat) (ec : GoErr) : Prop :=
  (T.getD i dummyFunc).numIn = (compArgsOf R i).length ∧
  isReturnError ((T.getD i dummyFunc).impl (compArgsOf R i)) = Except.ok (some ec)

/-- The trace fragment produced by compensating steps `n-1, n-2, ..., 0`,
every compensation succeeding. -/
def compEvs (eid : String) (sg : Saga) (R : List (List RVal)) (T : List GoFunc) :
    Nat → List Ev
  | 0 => []
  | n + 1 =>
    Ev.append (compensatingLog eid sg n) ::
      Ev.compCall n (compArgsOf R n) ((T.getD n dummyFunc).impl (compArgsOf R n)) ::
        compEvs eid sg R T n

theorem compensateStep_ok (env : CoordEnv) (st : St) (i : Nat)
    (Hstore : ∀ ls l, env.logStore ls l = none)
    (H : CompOk st.returnedValuesFromFunc st.toCompensate i) :
    compensateStep env st i =
      ({ st with trace := st.trace ++
          [Ev.append (compensatingLog env.executionID st.saga i),
           Ev.compCall i (compArgsOf st.returnedValuesFromFunc i)
             ((st.toCompensate.getD i dummyFunc).impl
               (compArgsOf st.returnedValuesFromFunc i))] }, none) := by
  obtain ⟨h1, h2⟩ := H
  simp only [compArgsOf, List.getD_eq_getElem?_getD] at h1 h2 ⊢
  simp [compensateStep, appendLog, Hstore, callFn, h1, h2, List.append_assoc]

theorem compensateStep_fail (env : CoordEnv) (st : St) (i : Nat) (ec : GoErr)
    (Hstore : ∀ ls l, env.logStore ls l = none)
    (H : CompFails st.returnedValuesFromFunc st.toCompensate i ec) :
    compensateStep env st i =
      ({ st with trace := st.trace ++
          [Ev.append (compensatingLog env.executionID st.saga i),
           Ev.compCall i (compArgsOf st.returnedValuesFromFunc i)
             ((st.toCompensate.getD i dummyFunc).impl
               (compArgsOf st.returnedValuesFromFunc i))] },
        some (Panic.compensationError ec)) := by
  obtain ⟨h1, h2⟩ := H
  simp only [compArgsOf, List.getD_eq_getElem?_getD] at h1 h2 ⊢
  simp [compensateStep, appendLog, Hstore, callFn, h1, h2, List.append_assoc]

theorem compLoop_ok (env : CoordEnv) (n : Nat) (st : St)
    (Hstore : ∀ ls l, env.logStore ls l = none)
    (H : ∀ i < n, CompOk st.returnedValuesFromFunc st.toCompensate i) :
    compLoop env n st =
      ({ st with trace := st.trace ++
          compEvs env.executionID st.saga st.returnedValuesFromFunc st.toCompensate n },
        none) := by
  induction n generalizing st with
  | zero => simp [compLoop, compEvs]
  | succ k ih =>
    have h1 := compensateStep_ok env st k Hstore (H k (Nat.lt_succ_self k))
    have hrest := ih ({ st with trace := st.trace ++
        [Ev.append (compensatingLog env.executionID st.saga k),
         Ev.compCall k (compArgsOf st.returnedValuesFromFunc k)
           ((st.toCompensate.getD k dummyFunc).impl
             (compArgsOf st.returnedValuesFromFunc k))] })
      (fun i hi => H i (Nat.lt_succ_of_lt hi))
    rw [compLoop, h1]
    simp only [hrest]
    simp [compEvs, List.append_assoc]

theorem compLoop_fail (env : CoordEnv) (j : Nat) (ec : GoErr) (n : Nat) (st : St)
    (Hstore : ∀ ls l, env.logStore ls l = none)
    (hj : j < n)
    (H : ∀ i, j < i → i < n → CompOk st.returnedValuesFromFunc st.toCompensate i)
    (Hf : CompFails st.returnedValuesFromFunc st.toCompensate j ec) :
    ∃ st2, compLoop env n st = (st2, some (Panic.compensationError ec)) := by
  induction n generalizing st with
  | zero => exact absurd hj (Nat.not_lt_zero j)
  | succ k ih =>
    by_cases hkj : k = j
    · subst hkj
      rw [compLoop, compensateStep_fail env st k ec Hstore Hf]
      exact ⟨_, rfl⟩
    · have hk : CompOk st.returnedValuesFromFunc st.toCompensate k :=
        H k (by omega) (Nat.lt_succ_self k)
      rw [compLoop, compensateStep_ok env st k Hstore hk]
      exact ih _ (by omega) (fun i h1 h2 => H i h1 (by omega)) Hf

theorem abort_ok (env : CoordEnv) (st : St)
    (Hstore : ∀ ls l, env.logStore ls l = none)
    (H : ∀ i < st.toCompensate.length,
      CompOk st.returnedValuesFromFunc st.toCompensate i) :
    abort env st =
      ({ st with
          aborted := true,
          trace := st.trace ++
            Ev.append (abortedLog env.executionID st.saga st.toCompensate.length) ::
              compEvs env.executionID st.saga st.returnedValuesFromFunc st.toCompensate
                st.toCompensate.length }, none) := by
  have hc := compLoop_ok env st.toCompensate.length
    ({ st with
        aborted := true,
        trace := st.trace ++
          [Ev.append (abortedLog env.executionID st.saga st.toCompensate.length)] })
    Hstore H
  simp only [abort, appendLog, Hstore]
  simp only [hc]
  simp [List.append_assoc]

theorem execStep_fail (env : CoordEnv) (aF cF : Nat → GoFunc) (i : Nat) (e : GoErr) (st : St)
    (Hstore : ∀ ls l, env.logStore ls l = none)
    (Hab : st.aborted = false)
    (H : StepRuns st.saga aF cF i)
    (Herr : isReturnError ((aF i).impl [Arg.actx]) = Except.ok (some e))
    (Hcomp : ∀ m < (st.toCompensate ++ [cF i]).length,
      CompOk (st.returnedValuesFromFunc ++ [(aF i).impl [Arg.actx]])
        (st.toCompensate ++ [cF i]) m) :
    execStep env st i =
      ({ st with
          returnedValuesFromFunc := st.returnedValuesFromFunc ++ [(aF i).impl [Arg.actx]],
          toCompensate := st.toCompensate ++ [cF i],
          aborted := true,
          err := some e,
          trace := st.trace ++
            (Ev.append (stepStartedLog env.executionID st.saga i) ::
              Ev.actionCall i [Arg.actx] ((aF i).impl [Arg.actx]) ::
                Ev.append (abortedLog env.executionID st.saga
                    (st.toCompensate ++ [cF i]).length) ::
                  compEvs env.executionID st.saga
                    (st.returnedValuesFromFunc ++ [(aF i).impl [Arg.actx]])
                    (st.toCompensate ++ [cF i])
                    (st.toCompensate ++ [cF i]).length) }, none) := by
  obtain ⟨⟨hf, hn, hc⟩, hcomp⟩ := H
  have hg : getFuncValue (FuncObj.fn (aF i)) = Except.ok (aF i) := by
    simp [getFuncValue, hn, hc]
  have hcall : callFn (aF i) [Arg.actx] = Except.ok ((aF i).impl [Arg.actx]) := by
    simp [callFn, hn]
  have hab := abort_ok env
    ({ st with
        returnedValuesFromFunc := st.returnedValuesFromFunc ++ [(aF i).impl [Arg.actx]],
        toCompensate := st.toCompensate ++ [cF i],
        err := some e,
        trace := st.trace ++
          [Ev.append (stepStartedLog env.executionID st.saga i),
           Ev.actionCall i [Arg.actx] ((aF i).impl [Arg.actx])] })
    Hstore Hcomp
  simp only [List.getD_eq_getElem?_getD] at hf hcomp
  simp only [execStep, Hab, Bool.false_eq_true, if_false, appendLog, Hstore,
    List.getD_eq_getElem?_getD] at hab ⊢
  simp [hf, hg, hcall, hcomp, Herr, hab, List.append_assoc]

/-- The final coordinator state of an all-success run. -/
def allOkState (env : CoordEnv) (sg : Saga) (aF cF : Nat → GoFunc) : St :=
  { saga := sg,
    returnedValuesFromFunc :=
      (List.range sg.steps.length).map (fun i => (aF i).impl [Arg.actx]),
    toCompensate := (List.range sg.steps.length).map cF,
    aborted := false,
    err := none,
    trace := Ev.append (startedLog env.executionID sg) ::
      (fwdEvs env.executionID sg aF (List.range sg.steps.length) ++
        [Ev.append (completedLog env.executionID sg)]) }

theorem runAllOk (env : CoordEnv) (sg : Saga) (aF cF : Nat → GoFunc)
    (Hstore : ∀ ls l, env.logStore ls l = none)
    (Hgood : ∀ i < sg.steps.length, StepRuns sg aF cF i ∧
      isReturnError ((aF i).impl [Arg.actx]) = Except.ok none) :
    Play env sg = (allOkState env sg aF cF, Except.ok ⟨none⟩) := by
  have hloop := stepsLoop_ok env aF cF (List.range sg.steps.length)
    ({ saga := sg, returnedValuesFromFunc := [], toCompensate := [], aborted := false,
       err := none, trace := [Ev.append (startedLog env.executionID sg)] })
    Hstore rfl (fun i hi => Hgood i (List.mem_range.mp hi))
  simp only [Play, St.init, appendLog, Hstore, List.nil_append]
  simp only [hloop]
  simp [allOkState, appendLog, Hstore]

/-- The recorded forward results after executing steps `0..k`. -/
def runR (aF : Nat → GoFunc) (k : Nat) : List (List RVal) :=
  (List.range (k + 1)).map (fun i => (aF i).impl [Arg.actx])

/-- The recorded compensation targets after executing steps `0..k`. -/
def runT (cF : Nat → GoFunc) (k : Nat) : List GoFunc :=
  (List.range (k + 1)).map cF

/-- The final coordinator state of a run whose step `k` action fails with
`e`, all prior steps succeeding and all compensations succeeding. -/
def abortState (env : CoordEnv) (sg : Saga) (aF cF : Nat → GoFunc) (k : Nat) (e : GoErr) : St :=
  { saga := sg,
    returnedValuesFromFunc := runR aF k,
    toCompensate := runT cF k,
    aborted := true,
    err := some e,
    trace := Ev.append (startedLog env.executionID sg) ::
      (fwdEvs env.executionID sg aF (List.range k) ++
        (Ev.append (stepStartedLog env.executionID sg k) ::
          Ev.actionCall k [Arg.actx] ((aF k).impl [Arg.actx]) ::
            Ev.append (abortedLog env.executionID sg (k + 1)) ::
              (compEvs env.executionID sg (runR aF k) (runT cF k) (k + 1) ++
                [Ev.append (completedLog env.executionID sg)]))) }

theorem runAbort (env : CoordEnv) (sg : Saga) (aF cF : Nat → GoFunc) (k : Nat) (e : GoErr)
    (Hstore : ∀ ls l, env.logStore ls l = none)
    (Hlen : k < sg.steps.length)
    (Hgood : ∀ i < k, StepRuns sg aF cF i ∧
      isReturnError ((aF i).impl [Arg.actx]) = Except.ok none)
    (Hk : StepRuns sg aF cF k)
    (He : isReturnError ((aF k).impl [Arg.actx]) = Except.ok (some e))
    (Hcomp : ∀ m < k + 1, CompOk (runR aF k) (runT cF k) m) :
    Play env sg = (abortState env sg aF cF k e, Except.ok ⟨some e⟩) := by
  have hn : sg.steps.length = (k + 1) + (sg.steps.length - (k + 1)) := by omega
  have hsplit : List.range sg.steps.length =
      (List.range k ++ [k]) ++ (List.range (sg.steps.length - (k + 1))).map ((k + 1) + ·) := by
    rw [← List.range_succ]
    rw [← List.range_add]
    exact congrArg List.range hn
  set st1 : St :=
    { saga := sg, returnedValuesFromFunc := [], toCompensate := [], aborted := false,
      err := none, trace := [Ev.append (startedLog env.executionID sg)] } with hst1
  have hfwd := stepsLoop_ok env aF cF (List.range k) st1 Hstore rfl
    (fun i hi => Hgood i (List.mem_range.mp hi))
  set stA : St :=
    { saga := sg,
      returnedValuesFromFunc := (List.range k).map (fun i => (aF i).impl [Arg.actx]),
      toCompensate := (List.range k).map cF,
      aborted := false,
      err := none,
      trace := Ev.append (startedLog env.executionID sg) ::
        fwdEvs env.executionID sg aF (List.range k) } with hstA
  have hfwdA : stepsLoop env (List.range k) st1 = (stA, none) := by
    rw [hfwd]
    simp [hst1, hstA]
  have hRk : stA.returnedValuesFromFunc ++ [(aF k).impl [Arg.actx]] = runR aF k := by
    simp [hstA, runR, List.range_succ]
  have hTk : stA.toCompensate ++ [cF k] = runT cF k := by
    simp [hstA, runT, List.range_succ]
  have hTlen : (stA.toCompensate ++ [cF k]).length = k + 1 := by
    simp [hstA]
  have hTlen2 : (runT cF k).length = k + 1 := by
    simp [runT]
  have hcompA : ∀ m < (stA.toCompensate ++ [cF k]).length,
      CompOk (stA.returnedValuesFromFunc ++ [(aF k).impl [Arg.actx]])
        (stA.toCompensate ++ [cF k]) m := by
    rw [hRk, hTk, hTlen2]
    exact Hcomp
  have hkstep := execStep_fail env aF cF k e stA Hstore rfl Hk He hcompA
  rw [hRk, hTk] at hkstep
  rw [hTlen2] at hkstep
  have hkstepB : execStep env stA k =
      ({ abortState env sg aF cF k e with
          trace := Ev.append (startedLog env.executionID sg) ::
            (fwdEvs env.executionID sg aF (List.range k) ++
              (Ev.append (stepStartedLog env.executionID sg k) ::
                Ev.actionCall k [Arg.actx] ((aF k).impl [Arg.actx]) ::
                  Ev.append (abortedLog env.executionID sg (k + 1)) ::
                    compEvs env.executionID sg (runR aF k) (runT cF k) (k + 1))) }, none) := by
    rw [hkstep]
    simp [hstA, abortState, List.append_assoc]
  have htail := stepsLoop_aborted env
    ((List.range (sg.steps.length - (k + 1))).map ((k + 1) + ·))
    ({ abortState env sg aF cF k e with
        trace := Ev.append (startedLog env.executionID sg) ::
          (fwdEvs env.executionID sg aF (List.range k) ++
            (Ev.append (stepStartedLog env.executionID sg k) ::
              Ev.actionCall k [Arg.actx] ((aF k).impl [Arg.actx]) ::
                Ev.append (abortedLog env.executionID sg (k + 1)) ::
                  compEvs env.executionID sg (runR aF k) (runT cF k) (k + 1))) })
    rfl
  simp only [Play, St.init, appendLog, Hstore, List.nil_append]
  rw [show List.range sg.steps.length =
      (List.range k ++ [k]) ++ (List.range (sg.steps.length - (k + 1))).map ((k + 1) + ·)
    from hsplit]
  rw [stepsLoop_split]
  rw [stepsLoop_split]
  rw [hfwdA]
  simp only [stepsLoop, hkstepB, htail]
  simp [abortState, appendLog, Hstore, List.append_assoc]

theorem actionCallIdxs_append (a b : List Ev) :
    actionCallIdxs (a ++ b) = actionCallIdxs a ++ actionCallIdxs b := by
  simp [actionCallIdxs]

theorem compCallIdxs_append (a b : List Ev) :
    compCallIdxs (a ++ b) = compCallIdxs a ++ compCallIdxs b := by
  simp [compCallIdxs]

theorem compCallArgs_append (a b : List Ev) :
    compCallArgs (a ++ b) = compCallArgs a ++ compCallArgs b := by
  simp [compCallArgs]

theorem logsOf_append (a b : List Ev) :
    logsOf (a ++ b) = logsOf a ++ logsOf b := by
  simp [logsOf]

theorem mem_logsOf (l : Log) (t : List Ev) :
    l ∈ logsOf t ↔ Ev.append l ∈ t := by
  induction t with
  | nil => simp [logsOf]
  | cons e rest ih =>
    cases e <;> simp [logsOf] at ih ⊢ <;> simp [ih]

theorem actionCallIdxs_fwdEvs (eid : String) (sg : Saga) (aF : Nat → GoFunc)
    (is : List Nat) :
    actionCallIdxs (fwdEvs eid sg aF is) = is := by
  induction is with
  | nil => simp [fwdEvs, actionCallIdxs]
  | cons i rest ih => simp [fwdEvs, actionCallIdxs] at ih ⊢; exact ih

theorem compCallIdxs_fwdEvs (eid : String) (sg : Saga) (aF : Nat → GoFunc)
    (is : List Nat) :
    compCallIdxs (fwdEvs eid sg aF is) = [] := by
  induction is with
  | nil => simp [fwdEvs, compCallIdxs]
  | cons i rest ih => simp [fwdEvs, compCallIdxs] at ih ⊢; exact ih

theorem compCallArgs_fwdEvs (eid : String) (sg : Saga) (aF : Nat → GoFunc)
    (is : List Nat) :
    compCallArgs (fwdEvs eid sg aF is) = [] := by
  induction is with
  | nil => simp [fwdEvs, compCallArgs]
  | cons i rest ih => simp [fwdEvs, compCallArgs] at ih ⊢; exact ih

theorem logsOf_fwdEvs (eid : String) (sg : Saga) (aF : Nat → GoFunc)
    (is : List Nat) :
    logsOf (fwdEvs eid sg aF is) = is.map (stepStartedLog eid sg) := by
  induction is with
  | nil => simp [fwdEvs, logsOf]
  | cons i rest ih => simp [fwdEvs, logsOf] at ih ⊢; exact ih

theorem actionCallIdxs_compEvs (eid : String) (sg : Saga) (R : List (List RVal))
    (T : List GoFunc) (n : Nat) :
    actionCallIdxs (compEvs eid sg R T n) = [] := by
  induction n with
  | zero => simp [compEvs, actionCallIdxs]
  | succ k ih => simp [compEvs, actionCallIdxs] at ih ⊢; exact ih

theorem compCallIdxs_compEvs (eid : String) (sg : Saga) (R : List (List RVal))
    (T : List GoFunc) (n : Nat) :
    compCallIdxs (compEvs eid sg R T n) = (List.range n).reverse := by
  induction n with
  | zero => simp [compEvs, compCallIdxs]
  | succ k ih =>
    simp [compEvs, compCallIdxs, List.range_succ] at ih ⊢
    exact ih

theorem compCallArgs_compEvs (eid : String) (sg : Saga) (R : List (List RVal))
    (T : List GoFunc) (n : Nat) :
    compCallArgs (compEvs eid sg R T n) =
      ((List.range n).reverse).map (fun i => (i, compArgsOf R i)) := by
  induction n with
  | zero => simp [compEvs, compCallArgs]
  | succ k ih =>
    simp [compEvs, compCallArgs, List.range_succ] at ih ⊢
    exact ih

theorem logsOf_compEvs (eid : String) (sg : Saga) (R : List (List RVal))
    (T : List GoFunc) (n : Nat) :
    logsOf (compEvs eid sg R T n) =
      ((List.range n).reverse).map (compensatingLog eid sg) := by
  induction n with
  | zero => simp [compEvs, logsOf]
  | succ k ih =>
    simp [compEvs, logsOf, List.range_succ] at ih ⊢
    exact ih

theorem actionCallIdxs_nil : actionCallIdxs [] = [] := by
  simp [actionCallIdxs]

theorem compCallIdxs_nil : compCallIdxs [] = [] := by
  simp [compCallIdxs]

theorem compCallArgs_nil : compCallArgs [] = [] := by
  simp [compCallArgs]

theorem logsOf_nil : logsOf [] = [] := by
  simp [logsOf]

theorem actionCallIdxs_cons_append (l : Log) (t : List Ev) :
    actionCallIdxs (Ev.append l :: t) = actionCallIdxs t := by
  simp [actionCallIdxs]

theorem compCallIdxs_cons_append (l : Log) (t : List Ev) :
    compCallIdxs (Ev.append l :: t) = compCallIdxs t := by
  simp [compCallIdxs]

theorem compCallArgs_cons_append (l : Log) (t : List Ev) :
    compCallArgs (Ev.append l :: t) = compCallArgs t := by
  simp [compCallArgs]

theorem logsOf_cons_append (l : Log) (t : List Ev) :
    logsOf (Ev.append l :: t) = l :: logsOf t := by
  simp [logsOf]

theorem actionCallIdxs_cons_action (i : Nat) (a : List Arg) (r : List RVal) (t : List Ev) :
    actionCallIdxs (Ev.actionCall i a r :: t) = i :: actionCallIdxs t := by
  simp [actionCallIdxs]

theorem compCallIdxs_cons_action (i : Nat) (a : List Arg) (r : List RVal) (t : List Ev) :
    compCallIdxs (Ev.actionCall i a r :: t) = compCallIdxs t := by
  simp [compCallIdxs]

theorem compCallArgs_cons_action (i : Nat) (a : List Arg) (r : List RVal) (t : List Ev) :
    compCallArgs (Ev.actionCall i a r :: t) = compCallArgs t := by
  simp [compCallArgs]

theorem logsOf_cons_action (i : Nat) (a : List Arg) (r : List RVal) (t : List Ev) :
    logsOf (Ev.actionCall i a r :: t) = logsOf t := by
  simp [logsOf]

theorem countP_map_eq_zero {α β : Type} (f : α → β) (p : β → Bool) (l : List α)
    (h : ∀ a, p (f a) = false) : (l.map f).countP p = 0 := by
  induction l with
  | nil => simp
  | cons a rest ih => simp [List.countP_cons, h, ih]

/-- The element `i < k + 1` of the recorded forward results after steps
`0..k` is exactly what step `i`'s action returned. -/
theorem runR_getD (aF : Nat → GoFunc) (k i : Nat) (h : i < k + 1) :
    (runR aF k).getD i [] = (aF i).impl [Arg.actx] := by
  simp [runR, List.getD_eq_getElem?_getD, List.getElem?_map, List.getElem?_range h]

/-- `addParams` applied to a contract-conforming result list (zero or more
values followed by the trailing error slot) yields the context followed by
exactly the non-error values. -/
theorem addParams_spec (vs : List RVal) (e : Option GoErr) :
    addParams [Arg.actx] (vs ++ [RVal.rerr e]) = Arg.actx :: vs.map Arg.rv := by
  cases vs with
  | nil => simp [addParams]
  | cons a rest =>
    have hlen : ((a :: rest) ++ [RVal.rerr e]).length - 1 = (a :: rest).length := by
      simp
    simp only [addParams, hlen]
    rw [List.take_left]
    simp

/-- Coordinator state right after the `SagaStarted` append. -/
def startedState (env : CoordEnv) (sg : Saga) : St :=
  { saga := sg, returnedValuesFromFunc := [], toCompensate := [], aborted := false,
    err := none, trace := [Ev.append (startedLog env.executionID sg)] }

/-- Coordinator state after successfully executing steps `0..k-1`. -/
def fwdState (env : CoordEnv) (sg : Saga) (aF cF : Nat → GoFunc) (k : Nat) : St :=
  { saga := sg,
    returnedValuesFromFunc := (List.range k).map (fun i => (aF i).impl [Arg.actx]),
    toCompensate := (List.range k).map cF,
    aborted := false,
    err := none,
    trace := Ev.append (startedLog env.executionID sg) ::
      fwdEvs env.executionID sg aF (List.range k) }

theorem Play_panic (env : CoordEnv) (sg : Saga) (st2 : St) (p : Panic)
    (Hstore : ∀ ls l, env.logStore ls l = none)
    (h : stepsLoop env (List.range sg.steps.length) (startedState env sg) = (st2, some p)) :
    Play env sg = (st2, Except.error p) := by
  simp only [startedState] at h
  simp only [Play, St.init, appendLog, Hstore, List.nil_append]
  simp only [h]

theorem stepsLoop_to_k (env : CoordEnv) (sg : Saga) (aF cF : Nat → GoFunc) (k : Nat)
    (rest : List Nat) (st2 : St) (p : Panic)
    (Hstore : ∀ ls l, env.logStore ls l = none)
    (Hgood : ∀ i < k, StepRuns sg aF cF i ∧
      isReturnError ((aF i).impl [Arg.actx]) = Except.ok none)
    (hk : execStep env (fwdState env sg aF cF k) k = (st2, some p)) :
    stepsLoop env ((List.range k ++ [k]) ++ rest) (startedState env sg) = (st2, some p) := by
  have hfwd := stepsLoop_ok env aF cF (List.range k) (startedState env sg) Hstore rfl
    (fun i hi => Hgood i (List.mem_range.mp hi))
  have hfwdA : stepsLoop env (List.range k) (startedState env sg) =
      (fwdState env sg aF cF k, none) := by
    rw [hfwd]
    simp [startedState, fwdState]
  rw [stepsLoop_split, stepsLoop_split, hfwdA]
  simp only [stepsLoop, hk]

theorem execStep_badFunc (env : CoordEnv) (st : St) (i : Nat) (p : Panic)
    (Hstore : ∀ ls l, env.logStore ls l = none)
    (Hab : st.aborted = false)
    (H : getFuncValue (st.saga.steps.getD i dummyStep).Func = Except.error p) :
    execStep env st i =
      ({ st with trace := st.trace ++
          [Ev.append (stepStartedLog env.executionID st.saga i)] }, some p) := by
  simp only [List.getD_eq_getElem?_getD] at H
  simp [execStep, Hab, appendLog, Hstore, H]

theorem execStep_badComp (env : CoordEnv) (aF : Nat → GoFunc) (i : Nat) (p : Panic) (st : St)
    (Hstore : ∀ ls l, env.logStore ls l = none)
    (Hab : st.aborted = false)
    (H : ActionRuns st.saga aF i)
    (Hc : getFuncValue (st.saga.steps.getD i dummyStep).CompensateFunc = Except.error p) :
    execStep env st i =
      ({ st with trace := st.trace ++
          [Ev.append (stepStartedLog env.executionID st.saga i),
           Ev.actionCall i [Arg.actx] ((aF i).impl [Arg.actx])] }, some p) := by
  obtain ⟨hf, hn, hc⟩ := H
  have hg : getFuncValue (FuncObj.fn (aF i)) = Except.ok (aF i) := by
    simp [getFuncValue, hn, hc]
  have hcall : callFn (aF i) [Arg.actx] = Except.ok ((aF i).impl [Arg.actx]) := by
    simp [callFn, hn]
  simp only [List.getD_eq_getElem?_getD] at hf Hc
  simp [execStep, Hab, appendLog, Hstore, hf, hg, hcall, Hc, List.append_assoc]

/-- The only errors `getFuncValue` raises are the two configuration
errors. -/
theorem getFuncValue_error_shape (obj : FuncObj) (p : Panic)
    (h : getFuncValue obj = Except.error p) :
    p = Panic.checkErrPanic "registered object must be a func" ∨
      p = Panic.checkErrPanic "first argument must use context.ctx" := by
  cases obj with
  | nonFunc =>
    simp only [getFuncValue] at h
    injection h with h2
    exact Or.inl h2.symm
  | fn f =>
    simp only [getFuncValue] at h
    by_cases hcond : f.numIn < 1 ∨ f.firstIsCtx = false
    · rw [if_pos hcond] at h
      injection h with h2
      exact Or.inr h2.symm
    · rw [if_neg hcond] at h
      exact absurd h (by simp)

/-- A malformed registered object (not a function, or first parameter not
the context) makes `getFuncValue` raise a configuration error. -/
theorem getFuncValue_malformed (obj : FuncObj)
    (h : obj = FuncObj.nonFunc ∨
      ∃ f, obj = FuncObj.fn f ∧ (f.numIn < 1 ∨ f.firstIsCtx = false)) :
    ∃ p, getFuncValue obj = Except.error p := by
  rcases h with h | ⟨f, hf, hcond⟩
  · subst h
    exact ⟨Panic.checkErrPanic "registered object must be a func", rfl⟩
  · subst hf
    refine ⟨Panic.checkErrPanic "first argument must use context.ctx", ?_⟩
    simp only [getFuncValue]
    rw [if_pos hcond]

/-- Frame facts about one coordinator operation between states `st` and
`st1` with outcome `po`: the saga pointer is untouched, the trace only
grows, no grown `append` event is a `SagaCompleted` event, and a grown
`appendFail` event forces the outcome to be the corresponding `checkErr`
panic. -/
def StepExt (st st1 : St) (po : Option Panic) : Prop :=
  st1.saga = st.saga ∧
  ∃ t, st1.trace = st.trace ++ t ∧
    (∀ l, Ev.append l ∈ t → l.type ≠ LogType.sagaComplete) ∧
    (∀ l e, Ev.appendFail l e ∈ t → po = some (Panic.checkErrPanic e))

theorem StepExt.id (st : St) (po : Option Panic) : StepExt st st po :=
  ⟨rfl, [], (List.append_nil _).symm, by simp, by simp⟩

theorem StepExt.weaken {st st1 : St} (h : StepExt st st1 none) (po : Option Panic) :
    StepExt st st1 po := by
  obtain ⟨hs, t, ht, ha, hf⟩ := h
  exact ⟨hs, t, ht, ha, fun l e hm => absurd (hf l e hm) (by simp)⟩

theorem StepExt.seq {st st1 st2 : St} {po : Option Panic}
    (h1 : StepExt st st1 none) (h2 : StepExt st1 st2 po) : StepExt st st2 po := by
  obtain ⟨hs1, t1, ht1, ha1, hf1⟩ := h1
  obtain ⟨hs2, t2, ht2, ha2, hf2⟩ := h2
  refine ⟨hs2.trans hs1, t1 ++ t2, by rw [ht2, ht1, List.append_assoc], ?_, ?_⟩
  · intro l hm
    rcases List.mem_append.mp hm with hm | hm
    · exact ha1 l hm
    · exact ha2 l hm
  · intro l e hm
    rcases List.mem_append.mp hm with hm | hm
    · exact absurd (hf1 l e hm) (by simp)
    · exact hf2 l e hm

theorem appendLog_ext (env : CoordEnv) (st : St) (l : Log) (st1 : St) (po : Option Panic)
    (hty : l.type ≠ LogType.sagaComplete)
    (h : appendLog env st l = (st1, po)) : StepExt st st1 po := by
  unfold appendLog at h
  cases hs : env.logStore (logsOf st.trace) l with
  | none =>
    rw [hs] at h
    injection h with h1 h2
    subst h1
    subst h2
    exact ⟨rfl, [Ev.append l], rfl, by simpa using hty, by simp⟩
  | some e =>
    rw [hs] at h
    injection h with h1 h2
    subst h1
    subst h2
    refine ⟨rfl, [Ev.appendFail l e], rfl, by simp, ?_⟩
    intro l2 e2 hm
    simp at hm
    rw [hm.2]

/-- Like `appendLog_ext` but with no constraint on the appended event's
kind: the saga is preserved, the trace grows, and a failed append forces
the checkErr panic outcome. -/
theorem appendLog_fails (env : CoordEnv) (st : St) (l : Log) (st1 : St) (po : Option Panic)
    (h : appendLog env st l = (st1, po)) :
    st1.saga = st.saga ∧
    ∃ t, st1.trace = st.trace ++ t ∧
      (∀ l2 e, Ev.appendFail l2 e ∈ t → po = some (Panic.checkErrPanic e)) := by
  unfold appendLog at h
  cases hs : env.logStore (logsOf st.trace) l with
  | none =>
    rw [hs] at h
    injection h with h1 h2
    subst h1
    subst h2
    exact ⟨rfl, [Ev.append l], rfl, by simp⟩
  | some e =>
    rw [hs] at h
    injection h with h1 h2
    subst h1
    subst h2
    refine ⟨rfl, [Ev.appendFail l e], rfl, ?_⟩
    intro l2 e2 hm
    simp at hm
    rw [hm.2]

theorem compensateStep_ext (env : CoordEnv) (st : St) (i : Nat) (st1 : St)
    (po : Option Panic)
    (h : compensateStep env st i = (st1, po)) : StepExt st st1 po := by
  unfold compensateStep at h
  split at h
  case h_1 sta p heq =>
    injection h with h1 h2
    subst h1
    subst h2
    exact appendLog_ext env st _ sta _ (by simp [compensatingLog]) heq
  case h_2 sta heq =>
    have he1 : StepExt st sta none :=
      appendLog_ext env st _ sta none (by simp [compensatingLog]) heq
    dsimp only at h
    split at h
    case h_1 p hc =>
      injection h with h1 h2
      subst h1
      subst h2
      exact he1.weaken _
    case h_2 res hc =>
      have he2 : StepExt sta
          ({ sta with trace := sta.trace ++
            [Ev.compCall i (addParams [Arg.actx] (sta.returnedValuesFromFunc.getD i [])) res] })
          none :=
        ⟨rfl, [Ev.compCall i _ res], rfl, by simp, by simp⟩
      split at h
      case h_1 p hr =>
        injection h with h1 h2
        subst h1
        subst h2
        exact he1.seq (he2.weaken _)
      case h_2 hr =>
        injection h with h1 h2
        subst h1
        subst h2
        exact he1.seq he2
      case h_3 e hr =>
        injection h with h1 h2
        subst h1
        subst h2
        exact he1.seq (he2.weaken _)

theorem compLoop_ext (env : CoordEnv) (n : Nat) (st st1 : St) (po : Option Panic)
    (h : compLoop env n st = (st1, po)) : StepExt st st1 po := by
  induction n generalizing st with
  | zero =>
    unfold compLoop at h
    injection h with h1 h2
    subst h1
    subst h2
    exact StepExt.id st none
  | succ k ih =>
    unfold compLoop at h
    split at h
    case h_1 sta heq =>
      exact (compensateStep_ext env st k sta none heq).seq (ih sta h)
    case h_2 sta p heq =>
      injection h with h1 h2
      subst h1
      subst h2
      exact compensateStep_ext env st k sta _ heq

theorem abort_ext (env : CoordEnv) (st st1 : St) (po : Option Panic)
    (h : abort env st = (st1, po)) : StepExt st st1 po := by
  unfold abort at h
  dsimp only at h
  split at h
  case h_1 sta p heq =>
    injection h with h1 h2
    subst h1
    subst h2
    exact appendLog_ext env st _ sta _ (by simp [abortedLog]) heq
  case h_2 sta heq =>
    have he1 : StepExt st sta none :=
      appendLog_ext env st _ sta none (by simp [abortedLog]) heq
    have he2 := compLoop_ext env st.toCompensate.length { sta with aborted := true } st1 po h
    exact he1.seq he2

theorem execStep_ext (env : CoordEnv) (st : St) (i : Nat) (st1 : St) (po : Option Panic)
    (h : execStep env st i = (st1, po)) : StepExt st st1 po := by
  unfold execStep at h
  dsimp only at h
  split at h
  · injection h with h1 h2
    subst h1
    subst h2
    exact StepExt.id st none
  · split at h
    case h_1 sta p heq =>
      injection h with h1 h2
      subst h1
      subst h2
      exact appendLog_ext env st _ sta _ (by simp [stepStartedLog]) heq
    case h_2 sta heq =>
      have he1 : StepExt st sta none :=
        appendLog_ext env st _ sta none (by simp [stepStartedLog]) heq
      split at h
      case h_1 p hg =>
        injection h with h1 h2
        subst h1
        subst h2
        exact he1.weaken _
      case h_2 fv hg =>
        split at h
        case h_1 p hc =>
          injection h with h1 h2
          subst h1
          subst h2
          exact he1.weaken _
        case h_2 resp hc =>
          have he2 : StepExt sta
              ({ sta with trace := sta.trace ++ [Ev.actionCall i [Arg.actx] resp] }) none :=
            ⟨rfl, [Ev.actionCall i [Arg.actx] resp], rfl, by simp, by simp⟩
          split at h
          case h_1 p hgc =>
            injection h with h1 h2
            subst h1
            subst h2
            exact he1.seq (he2.weaken _)
          case h_2 cv hgc =>
            have he3 : StepExt ({ sta with trace := sta.trace ++ [Ev.actionCall i [Arg.actx] resp] })
                ({ sta with
                    trace := sta.trace ++ [Ev.actionCall i [Arg.actx] resp],
                    toCompensate := sta.toCompensate ++ [cv],
                    returnedValuesFromFunc := sta.returnedValuesFromFunc ++ [resp] }) none :=
              ⟨rfl, [], (List.append_nil _).symm, by simp, by simp⟩
            split at h
            case h_1 p hr =>
              injection h with h1 h2
              subst h1
              subst h2
              exact he1.seq ((he2.seq he3).weaken _)
            case h_2 hr =>
              injection h with h1 h2
              subst h1
              subst h2
              exact he1.seq (he2.seq he3)
            case h_3 e hr =>
              have he4 := abort_ext env _ st1 po h
              exact he1.seq ((he2.seq he3).seq (by exact he4))

theorem stepsLoop_ext (env : CoordEnv) (is : List Nat) (st st1 : St) (po : Option Panic)
    (h : stepsLoop env is st = (st1, po)) : StepExt st st1 po := by
  induction is generalizing st with
  | nil =>
    unfold stepsLoop at h
    injection h with h1 h2
    subst h1
    subst h2
    exact StepExt.id st none
  | cons i rest ih =>
    unfold stepsLoop at h
    split at h
    case h_1 sta heq =>
      exact (execStep_ext env st i sta none heq).seq (ih sta h)
    case h_2 sta p heq =>
      injection h with h1 h2
      subst h1
      subst h2
      exact execStep_ext env st i sta _ heq

/-! Concrete fixtures used to instantiate the theorems below on closed
inputs. -/

/-- A log store that never faults. -/
def happyStore : Store := fun _ _ => none

/-- A concrete run environment with a healthy store. -/
def wEnv : CoordEnv := ⟨"exec1", happyStore⟩

/-- An action returning the value 42 and a nil error. -/
def act42 : GoFunc := ⟨1, true, fun _ => [RVal.rint 42, RVal.rerr none]⟩

/-- A compensation taking the context plus one value, returning nil. -/
def comp2 : GoFunc := ⟨2, true, fun _ => [RVal.rerr none]⟩

/-- An action returning only a non-nil trailing error "boom". -/
def actBoom : GoFunc := ⟨1, true, fun _ => [RVal.rerr (some "boom")]⟩

/-- A compensation taking only the context, returning nil. -/
def comp1 : GoFunc := ⟨1, true, fun _ => [RVal.rerr none]⟩

/-- Step with the (42, nil) action and its two-argument compensation. -/
def step42 : Step := ⟨"s0", FuncObj.fn act42, FuncObj.fn comp2⟩

/-- Step whose action fails with "boom". -/
def stepBoom : Step := ⟨"s1", FuncObj.fn actBoom, FuncObj.fn comp1⟩

/-- One-step saga that fully succeeds. -/
def sagaOk : Saga := ⟨"ok", [step42]⟩

/-- Two-step saga failing at step 1 after step 0 succeeded. -/
def sagaFail : Saga := ⟨"fail", [step42, stepBoom]⟩

/-- Action table for `sagaFail`. -/
def aFfail : Nat → GoFunc := fun i => if i = 0 then act42 else actBoom

/-- Compensation table for `sagaFail`. -/
def cFfail : Nat → GoFunc := fun i => if i = 0 then comp2 else comp1

/-- Claim C2: for every saga of N steps (including N = 0) whose actions all
return a nil trailing error — with a healthy log store and step callables
passing the reflective shape checks — Play returns a Result with nil
error, invokes every action exactly once in order 0..N-1, invokes no
compensation, and appends exactly 2+N log events: SagaStarted, then one
StepStarted per step in step order, then SagaCompleted. -/
theorem C2_all_success_run (env : CoordEnv) (sg : Saga) (aF cF : Nat → GoFunc)
    (Hstore : ∀ ls l, env.logStore ls l = none)
    (Hgood : ∀ i < sg.steps.length, StepRuns sg aF cF i ∧
      isReturnError ((aF i).impl [Arg.actx]) = Except.ok none) :
    (Play env sg).2 = Except.ok ⟨none⟩ ∧
    actionCallIdxs (Play env sg).1.trace = List.range sg.steps.length ∧
    compCallIdxs (Play env sg).1.trace = [] ∧
    logsOf (Play env sg).1.trace =
      startedLog env.executionID sg ::
        ((List.range sg.steps.length).map (stepStartedLog env.executionID sg) ++
          [completedLog env.executionID sg]) ∧
    (logsOf (Play env sg).1.trace).length = 2 + sg.steps.length := by
  rw [runAllOk env sg aF cF Hstore Hgood]
  refine ⟨rfl, ?_, ?_, ?_, ?_⟩
  · simp [allOkState, actionCallIdxs_cons_append, actionCallIdxs_append,
      actionCallIdxs_fwdEvs, actionCallIdxs_nil]
  · simp [allOkState, compCallIdxs_cons_append, compCallIdxs_append,
      compCallIdxs_fwdEvs, compCallIdxs_nil]
  · simp [allOkState, logsOf_cons_append, logsOf_append, logsOf_fwdEvs, logsOf_nil]
  · simp [allOkState, logsOf_cons_append, logsOf_append, logsOf_fwdEvs, logsOf_nil]
    omega

/-- Witness for C2 on the concrete one-step saga `sagaOk`. -/
theorem C2_witness :
    (Play wEnv sagaOk).2 = Except.ok ⟨none⟩ ∧
    actionCallIdxs (Play wEnv sagaOk).1.trace = List.range 1 ∧
    compCallIdxs (Play wEnv sagaOk).1.trace = [] ∧
    logsOf (Play wEnv sagaOk).1.trace =
      startedLog "exec1" sagaOk ::
        ((List.range 1).map (stepStartedLog "exec1" sagaOk) ++
          [completedLog "exec1" sagaOk]) ∧
    (logsOf (Play wEnv sagaOk).1.trace).length = 2 + 1 :=
  C2_all_success_run wEnv sagaOk (fun _ => act42) (fun _ => comp2)
    (fun _ _ => rfl)
    (fun i hi => by
      rw [Nat.lt_one_iff.mp hi]
      exact ⟨⟨⟨rfl, rfl, rfl⟩, rfl⟩, rfl⟩)

/-- Claim C1: for every saga where step k's action returns a non-nil error
`e` and all prior actions return nil — with a healthy log store, shape-valid
step callables, and every recorded compensation succeeding (a failing
compensation would panic instead, see C5) — Play invokes the compensations
of steps k, k-1, ..., 0 in strictly descending order, invokes no action of
any step with index greater than k, and returns a Result whose error is
exactly `e`, the error of step k's action. -/
theorem C1_failure_reverse_compensation (env : CoordEnv) (sg : Saga)
    (aF cF : Nat → GoFunc) (k : Nat) (e : GoErr)
    (Hstore : ∀ ls l, env.logStore ls l = none)
    (Hlen : k < sg.steps.length)
    (Hgood : ∀ i < k, StepRuns sg aF cF i ∧
      isReturnError ((aF i).impl [Arg.actx]) = Except.ok none)
    (Hk : StepRuns sg aF cF k)
    (He : isReturnError ((aF k).impl [Arg.actx]) = Except.ok (some e))
    (Hcomp : ∀ m < k + 1, CompOk (runR aF k) (runT cF k) m) :
    (Play env sg).2 = Except.ok ⟨some e⟩ ∧
    compCallIdxs (Play env sg).1.trace = (List.range (k + 1)).reverse ∧
    actionCallIdxs (Play env sg).1.trace = List.range (k + 1) ∧
    (∀ j ∈ actionCallIdxs (Play env sg).1.trace, j ≤ k) := by
  rw [runAbort env sg aF cF k e Hstore Hlen Hgood Hk He Hcomp]
  refine ⟨rfl, ?_, ?_, ?_⟩
  · simp [abortState, compCallIdxs_cons_append, compCallIdxs_append,
      compCallIdxs_fwdEvs, compCallIdxs_nil, compCallIdxs_cons_action,
      compCallIdxs_compEvs]
  · simp [abortState, actionCallIdxs_cons_append, actionCallIdxs_append,
      actionCallIdxs_fwdEvs, actionCallIdxs_nil, actionCallIdxs_cons_action,
      actionCallIdxs_compEvs, List.range_succ]
  · intro j hj
    simp [abortState, actionCallIdxs_cons_append, actionCallIdxs_append,
      actionCallIdxs_fwdEvs, actionCallIdxs_nil, actionCallIdxs_cons_action,
      actionCallIdxs_compEvs, List.range_succ, List.mem_range] at hj
    omega

/-- Witness for C1 on `sagaFail`: step 1 fails with "boom"; compensations
run as 1 then 0; only actions 0 and 1 are invoked. -/
theorem C1_witness :
    (Play wEnv sagaFail).2 = Except.ok ⟨some "boom"⟩ ∧
    compCallIdxs (Play wEnv sagaFail).1.trace = (List.range 2).reverse ∧
    actionCallIdxs (Play wEnv sagaFail).1.trace = List.range 2 ∧
    (∀ j ∈ actionCallIdxs (Play wEnv sagaFail).1.trace, j ≤ 1) :=
  C1_failure_reverse_compensation wEnv sagaFail aFfail cFfail 1 "boom"
    (fun _ _ => rfl)
    (by decide)
    (fun i hi => by
      rw [Nat.lt_one_iff.mp hi]
      exact ⟨⟨⟨rfl, rfl, rfl⟩, rfl⟩, rfl⟩)
    ⟨⟨rfl, rfl, rfl⟩, rfl⟩
    rfl
    (fun m hm => by
      match m, hm with
      | 0, _ => exact ⟨rfl, rfl⟩
      | 1, _ => exact ⟨rfl, rfl⟩)

/-- Claim C8: when a run aborts (step k's action fails after steps 0..k-1
succeeded, healthy store, compensations succeeding), exactly one
SagaAborted log event is appended; it carries as its step-number field the
count k+1 of steps whose actions were already invoked (the failed step
included), and it is appended before any StepCompensating event. -/
theorem C8_aborted_event (env : CoordEnv) (sg : Saga)
    (aF cF : Nat → GoFunc) (k : Nat) (e : GoErr)
    (Hstore : ∀ ls l, env.logStore ls l = none)
    (Hlen : k < sg.steps.length)
    (Hgood : ∀ i < k, StepRuns sg aF cF i ∧
      isReturnError ((aF i).impl [Arg.actx]) = Except.ok none)
    (Hk : StepRuns sg aF cF k)
    (He : isReturnError ((aF k).impl [Arg.actx]) = Except.ok (some e))
    (Hcomp : ∀ m < k + 1, CompOk (runR aF k) (runT cF k) m) :
    (logsOf (Play env sg).1.trace).countP
        (fun l => decide (l.type = LogType.sagaAbort)) = 1 ∧
    abortedLog env.executionID sg (k + 1) ∈ logsOf (Play env sg).1.trace ∧
    (∃ pre post, logsOf (Play env sg).1.trace =
        pre ++ abortedLog env.executionID sg (k + 1) :: post ∧
        ∀ l ∈ pre, l.type ≠ LogType.sagaStepCompensate) := by
  rw [runAbort env sg aF cF k e Hstore Hlen Hgood Hk He Hcomp]
  dsimp only
  have hlogs : logsOf (abortState env sg aF cF k e).trace =
      startedLog env.executionID sg ::
        ((List.range (k + 1)).map (stepStartedLog env.executionID sg) ++
          (abortedLog env.executionID sg (k + 1) ::
            (((List.range (k + 1)).reverse).map (compensatingLog env.executionID sg) ++
              [completedLog env.executionID sg]))) := by
    simp [abortState, logsOf_cons_append, logsOf_append, logsOf_fwdEvs, logsOf_nil,
      logsOf_cons_action, logsOf_compEvs, List.range_succ]
  have hc1 : ((List.range (k + 1)).map (stepStartedLog env.executionID sg)).countP
      (fun l => decide (l.type = LogType.sagaAbort)) = 0 :=
    countP_map_eq_zero _ _ _ (fun a => by simp [stepStartedLog])
  have hc2 : (((List.range (k + 1)).reverse).map (compensatingLog env.executionID sg)).countP
      (fun l => decide (l.type = LogType.sagaAbort)) = 0 :=
    countP_map_eq_zero _ _ _ (fun a => by simp [compensatingLog])
  refine ⟨?_, ?_, ?_⟩
  · rw [hlogs]
    simp [List.countP_cons, List.countP_append, hc1, hc2, startedLog, abortedLog,
      completedLog, compensatingLog, stepStartedLog]
  · rw [hlogs]
    simp
  · refine ⟨startedLog env.executionID sg ::
        (List.range (k + 1)).map (stepStartedLog env.executionID sg),
      ((List.range (k + 1)).reverse).map (compensatingLog env.executionID sg) ++
        [completedLog env.executionID sg], ?_, ?_⟩
    · rw [hlogs]
      simp
    · intro l hl
      rcases List.mem_cons.mp hl with h | h
      · rw [h]
        simp [startedLog]
      · obtain ⟨a, _, ha⟩ := List.mem_map.mp h
        rw [← ha]
        simp [stepStartedLog]

/-- Witness for C8 on `sagaFail`: the abort event carries step number 2 and
precedes both compensating events. -/
theorem C8_witness :
    (logsOf (Play wEnv sagaFail).1.trace).countP
        (fun l => decide (l.type = LogType.sagaAbort)) = 1 ∧
    abortedLog "exec1" sagaFail 2 ∈ logsOf (Play wEnv sagaFail).1.trace ∧
    (∃ pre post, logsOf (Play wEnv sagaFail).1.trace =
        pre ++ abortedLog "exec1" sagaFail 2 :: post ∧
        ∀ l ∈ pre, l.type ≠ LogType.sagaStepCompensate) :=
  C8_aborted_event wEnv sagaFail aFfail cFfail 1 "boom"
    (fun _ _ => rfl)
    (by decide)
    (fun i hi => by
      rw [Nat.lt_one_iff.mp hi]
      exact ⟨⟨⟨rfl, rfl, rfl⟩, rfl⟩, rfl⟩)
    ⟨⟨rfl, rfl, rfl⟩, rfl⟩
    rfl
    (fun m hm => by
      match m, hm with
      | 0, _ => exact ⟨rfl, rfl⟩
      | 1, _ => exact ⟨rfl, rfl⟩)

/-- Claim C4: in an aborted run (step k fails, priors succeed, healthy
store, compensations succeed) where every executed action returns a
contract-conforming result list — its non-error values `vals i` followed
by the trailing error slot — each compensated step i is invoked with the
execution context followed by exactly `vals i`, the non-error values its
own forward action returned. -/
theorem C4_comp_gets_forward_values (env : CoordEnv) (sg : Saga)
    (aF cF : Nat → GoFunc) (k : Nat) (e : GoErr)
    (vals : Nat → List RVal) (eSlot : Nat → Option GoErr)
    (Hstore : ∀ ls l, env.logStore ls l = none)
    (Hlen : k < sg.steps.length)
    (Hgood : ∀ i < k, StepRuns sg aF cF i ∧
      isReturnError ((aF i).impl [Arg.actx]) = Except.ok none)
    (Hk : StepRuns sg aF cF k)
    (He : isReturnError ((aF k).impl [Arg.actx]) = Except.ok (some e))
    (Hcomp : ∀ m < k + 1, CompOk (runR aF k) (runT cF k) m)
    (Hshape : ∀ i < k + 1, (aF i).impl [Arg.actx] = vals i ++ [RVal.rerr (eSlot i)]) :
    compCallArgs (Play env sg).1.trace =
      ((List.range (k + 1)).reverse).map
        (fun i => (i, Arg.actx :: (vals i).map Arg.rv)) := by
  rw [runAbort env sg aF cF k e Hstore Hlen Hgood Hk He Hcomp]
  dsimp only
  simp only [abortState, compCallArgs_cons_append, compCallArgs_append,
    compCallArgs_fwdEvs, compCallArgs_nil, compCallArgs_cons_action,
    compCallArgs_compEvs, List.append_nil, List.nil_append]
  apply List.map_congr_left
  intro i hi
  rw [List.mem_reverse, List.mem_range] at hi
  rw [show compArgsOf (runR aF k) i = addParams [Arg.actx] ((runR aF k).getD i []) from rfl,
    runR_getD aF k i hi, Hshape i hi, addParams_spec]

/-- Witness for C4 on `sagaFail`: step 0's action returned (42, nil), and
its compensation is invoked with the context followed by exactly that 42;
step 1 produced no non-error values and its compensation gets only the
context. -/
theorem C4_witness :
    compCallArgs (Play wEnv sagaFail).1.trace =
      ((List.range 2).reverse).map
        (fun i => (i, Arg.actx ::
          ((if i = 0 then [RVal.rint 42] else []).map Arg.rv))) :=
  C4_comp_gets_forward_values wEnv sagaFail aFfail cFfail 1 "boom"
    (fun i => if i = 0 then [RVal.rint 42] else [])
    (fun i => if i = 0 then none else some "boom")
    (fun _ _ => rfl)
    (by decide)
    (fun i hi => by
      rw [Nat.lt_one_iff.mp hi]
      exact ⟨⟨⟨rfl, rfl, rfl⟩, rfl⟩, rfl⟩)
    ⟨⟨rfl, rfl, rfl⟩, rfl⟩
    rfl
    (fun m hm => by
      match m, hm with
      | 0, _ => exact ⟨rfl, rfl⟩
      | 1, _ => exact ⟨rfl, rfl⟩)
    (fun i hi => by
      match i, hi with
      | 0, _ => rfl
      | 1, _ => rfl)

/-- One-step saga whose only action fails with "boom". -/
def sagaBoom : Saga := ⟨"boom", [stepBoom]⟩

/-- Counterexample to claim C3 as stated: on this concrete run an action
returns a non-nil error, the run aborts (a SagaAborted event is appended
and the Result carries the error), and yet a SagaCompleted event IS
appended — coordinator.go appends SagaCompleted unconditionally at the end
of Play, aborted or not. -/
theorem C3_counterexample :
    (Play wEnv sagaBoom).2 = Except.ok ⟨some "boom"⟩ ∧
    (logsOf (Play wEnv sagaBoom).1.trace).countP
        (fun l => decide (l.type = LogType.sagaAbort)) = 1 ∧
    (logsOf (Play wEnv sagaBoom).1.trace).countP
        (fun l => decide (l.type = LogType.sagaComplete)) = 1 := by
  refine ⟨rfl, ?_, ?_⟩ <;> rfl

/-- Claim C3 (amended): coordinator.go appends SagaCompleted at the end of
every run that returns a Result normally — aborted runs included — not
only when forward progress completes with no error. In any normally
returning run, exactly one SagaCompleted event is appended and it is the
final log event; only a panicking run omits it. -/
theorem C3_completed_on_every_normal_run (env : CoordEnv) (sg : Saga)
    (st : St) (r : Result)
    (h : Play env sg = (st, Except.ok r)) :
    ∃ pre, logsOf st.trace = pre ++ [completedLog env.executionID sg] ∧
      ∀ l ∈ pre, l.type ≠ LogType.sagaComplete := by
  unfold Play at h
  dsimp only at h
  split at h
  case h_1 st1 p heq =>
    injection h with h1 h2
    exact Except.noConfusion h2
  case h_2 st1 heq =>
    split at h
    case h_1 st2 p heq2 =>
      injection h with h1 h2
      exact Except.noConfusion h2
    case h_2 st2 heq2 =>
      obtain ⟨hs1, t1, ht1, ha1, hf1⟩ :=
        appendLog_ext env (St.init sg) _ st1 none (by simp [startedLog]) heq
      obtain ⟨hs2, t2, ht2, ha2, hf2⟩ := stepsLoop_ext env _ st1 st2 none heq2
      have hsaga : st2.saga = sg := by
        rw [hs2, hs1]
        rfl
      rw [hsaga] at h
      split at h
      case h_1 st3 p heq3 =>
        injection h with h1 h2
        exact Except.noConfusion h2
      case h_2 st3 heq3 =>
        injection h with h1 h2
        subst h1
        unfold appendLog at heq3
        cases hstore2 : env.logStore (logsOf st2.trace) (completedLog env.executionID sg) with
        | some e2 =>
          rw [hstore2] at heq3
          injection heq3 with g1 g2
          exact Option.noConfusion g2
        | none =>
          rw [hstore2] at heq3
          injection heq3 with g1 g2
          refine ⟨logsOf t1 ++ logsOf t2, ?_, ?_⟩
          · rw [← g1]
            rw [show ({ st2 with trace := st2.trace ++
                [Ev.append (completedLog env.executionID sg)] } : St).trace =
              st2.trace ++ [Ev.append (completedLog env.executionID sg)] from rfl]
            rw [ht2, ht1]
            simp [St.init, logsOf_append, logsOf_cons_append, logsOf_nil]
          · intro l hl
            rcases List.mem_append.mp hl with hm | hm
            · exact ha1 l ((mem_logsOf l t1).mp hm)
            · exact ha2 l ((mem_logsOf l t2).mp hm)

/-- Witness for the amended C3 on the aborted concrete run of `sagaBoom`. -/
theorem C3_witness :
    ∃ pre, logsOf (Play wEnv sagaBoom).1.trace =
        pre ++ [completedLog "exec1" sagaBoom] ∧
      ∀ l ∈ pre, l.type ≠ LogType.sagaComplete :=
  C3_completed_on_every_normal_run wEnv sagaBoom (Play wEnv sagaBoom).1
    ⟨some "boom"⟩ rfl

/-- Claim C6: whenever the log store's append operation returns a non-nil
error `e` while appending any event of the run — whatever its kind — the
coordinator panics via checkErr with exactly that error instead of
continuing the run or returning a Result: a run whose trace records a
failed append has that panic as its outcome. -/
theorem C6_append_fault_fatal (env : CoordEnv) (sg : Saga) (st : St)
    (out : Except Panic Result)
    (h : Play env sg = (st, out)) :
    ∀ l e, Ev.appendFail l e ∈ st.trace → out = Except.error (Panic.checkErrPanic e) := by
  intro l e hm
  unfold Play at h
  dsimp only at h
  split at h
  case h_1 st1 p heq =>
    injection h with h1 h2
    subst h1
    obtain ⟨hs1, t1, ht1, ha1, hf1⟩ :=
      appendLog_ext env (St.init sg) _ st1 _ (by simp [startedLog]) heq
    rw [ht1] at hm
    rw [show (St.init sg).trace = [] from rfl] at hm
    rw [List.nil_append] at hm
    have hp := hf1 l e hm
    injection hp with hp2
    rw [← h2, hp2]
  case h_2 st1 heq =>
    obtain ⟨hs1, t1, ht1, ha1, hf1⟩ :=
      appendLog_ext env (St.init sg) _ st1 none (by simp [startedLog]) heq
    split at h
    case h_1 st2 p heq2 =>
      injection h with h1 h2
      subst h1
      obtain ⟨hs2, t2, ht2, ha2, hf2⟩ := stepsLoop_ext env _ st1 st2 _ heq2
      rw [ht2, ht1] at hm
      rw [show (St.init sg).trace = [] from rfl] at hm
      rw [List.nil_append] at hm
      rcases List.mem_append.mp hm with hm2 | hm2
      · exact absurd (hf1 l e hm2) (by simp)
      · have hp := hf2 l e hm2
        injection hp with hp2
        rw [← h2, hp2]
    case h_2 st2 heq2 =>
      obtain ⟨hs2, t2, ht2, ha2, hf2⟩ := stepsLoop_ext env _ st1 st2 none heq2
      split at h
      case h_1 st3 p heq3 =>
        injection h with h1 h2
        subst h1
        obtain ⟨hs3, t3, ht3, hf3⟩ := appendLog_fails env st2 _ st3 _ heq3
        rw [ht3, ht2, ht1] at hm
        rw [show (St.init sg).trace = [] from rfl] at hm
        rw [List.nil_append] at hm
        rcases List.mem_append.mp hm with hm2 | hm2
        · rcases List.mem_append.mp hm2 with hm3 | hm3
          · exact absurd (hf1 l e hm3) (by simp)
          · exact absurd (hf2 l e hm3) (by simp)
        · have hp := hf3 l e hm2
          injection hp with hp2
          rw [← h2, hp2]
      case h_2 st3 heq3 =>
        injection h with h1 h2
        subst h1
        obtain ⟨hs3, t3, ht3, hf3⟩ := appendLog_fails env st2 _ st3 none heq3
        rw [ht3, ht2, ht1] at hm
        rw [show (St.init sg).trace = [] from rfl] at hm
        rw [List.nil_append] at hm
        rcases List.mem_append.mp hm with hm2 | hm2
        · rcases List.mem_append.mp hm2 with hm3 | hm3
          · exact absurd (hf1 l e hm3) (by simp)
          · exact absurd (hf2 l e hm3) (by simp)
        · exact absurd (hf3 l e hm2) (by simp)

/-- A store that faults with "disk full" on StepStarted events only. -/
def failingStore : Store := fun _ l =>
  match l.type with
  | LogType.sagaStepExec => some "disk full"
  | _ => none

/-- Environment whose store faults on StepStarted events. -/
def fEnv : CoordEnv := ⟨"exec2", failingStore⟩

/-- Witness for C6: with a store faulting on the first StepStarted append,
Play panics with that store error. -/
theorem C6_witness :
    (Play fEnv sagaOk).2 = Except.error (Panic.checkErrPanic "disk full") :=
  C6_append_fault_fatal fEnv sagaOk (Play fEnv sagaOk).1 (Play fEnv sagaOk).2 rfl
    (stepStartedLog "exec2" sagaOk 0) "disk full" (by decide)

/-- Claim C9: Play never mutates the Saga value it was given: the saga
component of the final coordinator state — its name, its ordered step
sequence, and every step's action and compensation callables — is exactly
the saga passed in, whatever the run does; and since Play is a pure
function of the environment and the saga, replaying the same Saga value
reproduces the identical behaviour. -/
theorem C9_saga_never_mutated (env : CoordEnv) (sg : Saga) :
    ((Play env sg).1).saga = sg := by
  unfold Play
  dsimp only
  split
  case h_1 st1 p heq =>
    exact (appendLog_ext env (St.init sg) _ st1 _ (by simp [startedLog]) heq).1
  case h_2 st1 heq =>
    have hs1 : st1.saga = sg :=
      (appendLog_ext env (St.init sg) _ st1 none (by simp [startedLog]) heq).1
    split
    case h_1 st2 p heq2 =>
      exact ((stepsLoop_ext env _ st1 st2 _ heq2).1).trans hs1
    case h_2 st2 heq2 =>
      have hs2 : st2.saga = sg :=
        ((stepsLoop_ext env _ st1 st2 none heq2).1).trans hs1
      split
      case h_1 st3 p heq3 =>
        exact ((appendLog_fails env st2 _ st3 _ heq3).1).trans hs2
      case h_2 st3 heq3 =>
        exact ((appendLog_fails env st2 _ st3 none heq3).1).trans hs2

/-- Claim C7: a step whose registered action is not a function value, or
whose first declared parameter is not the execution-context type, makes
the coordinator panic with a configuration error when it reaches that step
(validation is lazy, at invocation time): every well-formed step before it
executes normally (its StepStarted event is logged and its action is
invoked, in order), the malformed step's own StepStarted event is logged
but its action never runs, no compensation runs, and no Result is returned
— the failure is a checkErr panic carrying one of the two configuration
messages, structurally distinct from a forward-step error carried inside a
normally returned Result. -/
theorem C7_malformed_action_fatal (env : CoordEnv) (sg : Saga)
    (aF cF : Nat → GoFunc) (m : Nat)
    (Hstore : ∀ ls l, env.logStore ls l = none)
    (Hlen : m < sg.steps.length)
    (Hgood : ∀ i < m, StepRuns sg aF cF i ∧
      isReturnError ((aF i).impl [Arg.actx]) = Except.ok none)
    (Hbad : (sg.steps.getD m dummyStep).Func = FuncObj.nonFunc ∨
      ∃ f, (sg.steps.getD m dummyStep).Func = FuncObj.fn f ∧
        (f.numIn < 1 ∨ f.firstIsCtx = false)) :
    ∃ msg, (msg = "registered object must be a func" ∨
        msg = "first argument must use context.ctx") ∧
      (Play env sg).2 = Except.error (Panic.checkErrPanic msg) ∧
      actionCallIdxs (Play env sg).1.trace = List.range m ∧
      compCallIdxs (Play env sg).1.trace = [] ∧
      logsOf (Play env sg).1.trace =
        startedLog env.executionID sg ::
          (List.range (m + 1)).map (stepStartedLog env.executionID sg) := by
  obtain ⟨p, hp⟩ := getFuncValue_malformed _ Hbad
  have hshape := getFuncValue_error_shape _ p hp
  have hstep : execStep env (fwdState env sg aF cF m) m =
      ({ fwdState env sg aF cF m with
          trace := (fwdState env sg aF cF m).trace ++
            [Ev.append (stepStartedLog env.executionID sg m)] }, some p) :=
    execStep_badFunc env (fwdState env sg aF cF m) m p Hstore rfl hp
  have hsplit : List.range sg.steps.length =
      (List.range m ++ [m]) ++
        (List.range (sg.steps.length - (m + 1))).map ((m + 1) + ·) := by
    rw [← List.range_succ, ← List.range_add]
    exact congrArg List.range (by omega)
  have hloop := stepsLoop_to_k env sg aF cF m
    ((List.range (sg.steps.length - (m + 1))).map ((m + 1) + ·)) _ p Hstore Hgood hstep
  rw [← hsplit] at hloop
  have hplay := Play_panic env sg _ p Hstore hloop
  have hres : (Play env sg).2 = Except.error p := by rw [hplay]
  have hact : actionCallIdxs (Play env sg).1.trace = List.range m := by
    rw [hplay]
    dsimp only
    simp [fwdState, actionCallIdxs_cons_append, actionCallIdxs_append,
      actionCallIdxs_fwdEvs, actionCallIdxs_nil]
  have hcmp : compCallIdxs (Play env sg).1.trace = [] := by
    rw [hplay]
    dsimp only
    simp [fwdState, compCallIdxs_cons_append, compCallIdxs_append,
      compCallIdxs_fwdEvs, compCallIdxs_nil]
  have hlog : logsOf (Play env sg).1.trace =
      startedLog env.executionID sg ::
        (List.range (m + 1)).map (stepStartedLog env.executionID sg) := by
    rw [hplay]
    dsimp only
    simp [fwdState, logsOf_cons_append, logsOf_append, logsOf_fwdEvs, logsOf_nil,
      List.range_succ]
  rcases hshape with h | h
  · exact ⟨_, Or.inl rfl, by rw [hres, h], hact, hcmp, hlog⟩
  · exact ⟨_, Or.inr rfl, by rw [hres, h], hact, hcmp, hlog⟩

/-- A step registering a non-function object as its action. -/
def stepNotFunc : Step := ⟨"bad", FuncObj.nonFunc, FuncObj.fn comp1⟩

/-- Two-step saga: a good step, then a step whose action is not callable. -/
def sagaBadFunc : Saga := ⟨"badfunc", [step42, stepNotFunc]⟩

/-- Witness for C7 on `sagaBadFunc`: step 0 runs, step 1's non-callable
action panics lazily with the configuration error. -/
theorem C7_witness :
    ∃ msg, (msg = "registered object must be a func" ∨
        msg = "first argument must use context.ctx") ∧
      (Play wEnv sagaBadFunc).2 = Except.error (Panic.checkErrPanic msg) ∧
      actionCallIdxs (Play wEnv sagaBadFunc).1.trace = List.range 1 ∧
      compCallIdxs (Play wEnv sagaBadFunc).1.trace = [] ∧
      logsOf (Play wEnv sagaBadFunc).1.trace =
        startedLog "exec1" sagaBadFunc ::
          (List.range 2).map (stepStartedLog "exec1" sagaBadFunc) :=
  C7_malformed_action_fatal wEnv sagaBadFunc (fun _ => act42) (fun _ => comp2) 1
    (fun _ _ => rfl)
    (by decide)
    (fun i hi => by
      rw [Nat.lt_one_iff.mp hi]
      exact ⟨⟨⟨rfl, rfl, rfl⟩, rfl⟩, rfl⟩)
    (Or.inl rfl)

/-- Claim C10: a step's compensation callable is shape-validated during
forward execution of that step, immediately after its action is invoked
and before the action's trailing error is inspected (nothing below
constrains what the step's action returned): with well-formed succeeding
steps before it and a shape-valid action of its own, a step whose
compensation is malformed makes Play panic with a configuration error even
though its own action was invoked and no compensation is ever executed —
in particular in runs whose actions all succeed. -/
theorem C10_comp_validated_during_forward (env : CoordEnv) (sg : Saga)
    (aF cF : Nat → GoFunc) (m : Nat) (p : Panic)
    (Hstore : ∀ ls l, env.logStore ls l = none)
    (Hlen : m < sg.steps.length)
    (Hgood : ∀ i < m, StepRuns sg aF cF i ∧
      isReturnError ((aF i).impl [Arg.actx]) = Except.ok none)
    (Hact : ActionRuns sg aF m)
    (Hbadc : getFuncValue (sg.steps.getD m dummyStep).CompensateFunc = Except.error p) :
    (Play env sg).2 = Except.error p ∧
    (p = Panic.checkErrPanic "registered object must be a func" ∨
      p = Panic.checkErrPanic "first argument must use context.ctx") ∧
    actionCallIdxs (Play env sg).1.trace = List.range (m + 1) ∧
    compCallIdxs (Play env sg).1.trace = [] := by
  have hstep : execStep env (fwdState env sg aF cF m) m =
      ({ fwdState env sg aF cF m with
          trace := (fwdState env sg aF cF m).trace ++
            [Ev.append (stepStartedLog env.executionID sg m),
             Ev.actionCall m [Arg.actx] ((aF m).impl [Arg.actx])] }, some p) :=
    execStep_badComp env aF m p (fwdState env sg aF cF m) Hstore rfl Hact Hbadc
  have hsplit : List.range sg.steps.length =
      (List.range m ++ [m]) ++
        (List.range (sg.steps.length - (m + 1))).map ((m + 1) + ·) := by
    rw [← List.range_succ, ← List.range_add]
    exact congrArg List.range (by omega)
  have hloop := stepsLoop_to_k env sg aF cF m
    ((List.range (sg.steps.length - (m + 1))).map ((m + 1) + ·)) _ p Hstore Hgood hstep
  rw [← hsplit] at hloop
  have hplay := Play_panic env sg _ p Hstore hloop
  refine ⟨by rw [hplay], getFuncValue_error_shape _ p Hbadc, ?_, ?_⟩
  · rw [hplay]
    dsimp only
    simp [fwdState, actionCallIdxs_cons_append, actionCallIdxs_append,
      actionCallIdxs_fwdEvs, actionCallIdxs_nil, actionCallIdxs_cons_action,
      List.range_succ]
  · rw [hplay]
    dsimp only
    simp [fwdState, compCallIdxs_cons_append, compCallIdxs_append,
      compCallIdxs_fwdEvs, compCallIdxs_nil, compCallIdxs_cons_action]

/-- A step whose action succeeds with (42, nil) but whose compensation is
not a function value. -/
def stepBadComp : Step := ⟨"bc", FuncObj.fn act42, FuncObj.nonFunc⟩

/-- One-step saga with a succeeding action and a malformed compensation. -/
def sagaBadComp : Saga := ⟨"badcomp", [stepBadComp]⟩

/-- Witness for C10 on `sagaBadComp`: the only action succeeds, yet Play
panics with the configuration error while never invoking a
compensation. -/
theorem C10_witness :
    (Play wEnv sagaBadComp).2 =
      Except.error (Panic.checkErrPanic "registered object must be a func") ∧
    (Panic.checkErrPanic "registered object must be a func" =
        Panic.checkErrPanic "registered object must be a func" ∨
      Panic.checkErrPanic "registered object must be a func" =
        Panic.checkErrPanic "first argument must use context.ctx") ∧
    actionCallIdxs (Play wEnv sagaBadComp).1.trace = List.range 1 ∧
    compCallIdxs (Play wEnv sagaBadComp).1.trace = [] :=
  C10_comp_validated_during_forward wEnv sagaBadComp (fun _ => act42)
    (fun _ => comp2) 0
    (Panic.checkErrPanic "registered object must be a func")
    (fun _ _ => rfl)
    (by decide)
    (fun i hi => absurd hi (by omega))
    ⟨rfl, rfl, rfl⟩
    rfl

theorem abort_fail (env : CoordEnv) (st : St) (j : Nat) (ec : GoErr)
    (Hstore : ∀ ls l, env.logStore ls l = none)
    (hj : j < st.toCompensate.length)
    (H : ∀ i, j < i → i < st.toCompensate.length →
      CompOk st.returnedValuesFromFunc st.toCompensate i)
    (Hf : CompFails st.returnedValuesFromFunc st.toCompensate j ec) :
    ∃ st2, abort env st = (st2, some (Panic.compensationError ec)) := by
  obtain ⟨st4, h4⟩ := compLoop_fail env j ec st.toCompensate.length
    ({ st with
        aborted := true,
        trace := st.trace ++
          [Ev.append (abortedLog env.executionID st.saga st.toCompensate.length)] })
    Hstore hj H Hf
  refine ⟨st4, ?_⟩
  simp only [abort, appendLog, Hstore]
  exact h4

theorem execStep_fail_comp (env : CoordEnv) (aF cF : Nat → GoFunc) (i : Nat)
    (e ec : GoErr) (j : Nat) (st : St)
    (Hstore : ∀ ls l, env.logStore ls l = none)
    (Hab : st.aborted = false)
    (H : StepRuns st.saga aF cF i)
    (Herr : isReturnError ((aF i).impl [Arg.actx]) = Except.ok (some e))
    (hj : j < (st.toCompensate ++ [cF i]).length)
    (Hcomp : ∀ m, j < m → m < (st.toCompensate ++ [cF i]).length →
      CompOk (st.returnedValuesFromFunc ++ [(aF i).impl [Arg.actx]])
        (st.toCompensate ++ [cF i]) m)
    (Hf : CompFails (st.returnedValuesFromFunc ++ [(aF i).impl [Arg.actx]])
      (st.toCompensate ++ [cF i]) j ec) :
    ∃ st2, execStep env st i = (st2, some (Panic.compensationError ec)) := by
  obtain ⟨⟨hf, hn, hc⟩, hcompv⟩ := H
  have hg : getFuncValue (FuncObj.fn (aF i)) = Except.ok (aF i) := by
    simp [getFuncValue, hn, hc]
  have hcall : callFn (aF i) [Arg.actx] = Except.ok ((aF i).impl [Arg.actx]) := by
    simp [callFn, hn]
  have hred : execStep env st i = abort env
      ({ st with
          returnedValuesFromFunc := st.returnedValuesFromFunc ++ [(aF i).impl [Arg.actx]],
          toCompensate := st.toCompensate ++ [cF i],
          err := some e,
          trace := st.trace ++
            [Ev.append (stepStartedLog env.executionID st.saga i),
             Ev.actionCall i [Arg.actx] ((aF i).impl [Arg.actx])] }) := by
    simp only [List.getD_eq_getElem?_getD] at hf hcompv
    simp [execStep, Hab, appendLog, Hstore, hf, hg, hcall, hcompv, Herr,
      List.append_assoc]
  obtain ⟨st2, h2⟩ := abort_fail env
    ({ st with
        returnedValuesFromFunc := st.returnedValuesFromFunc ++ [(aF i).impl [Arg.actx]],
        toCompensate := st.toCompensate ++ [cF i],
        err := some e,
        trace := st.trace ++
          [Ev.append (stepStartedLog env.executionID st.saga i),
           Ev.actionCall i [Arg.actx] ((aF i).impl [Arg.actx])] })
    j ec Hstore hj Hcomp Hf
  exact ⟨st2, by rw [hred, h2]⟩

/-- Claim C5: when a compensation returns a non-nil error `ec` — here in a
run aborting at step k whose compensations above j succeed and whose step
j compensation fails — Play does not return a Result at all: it panics
with exactly that compensation error. Consequently the error inside any
normally returned Result is never a compensation error: it is the original
forward-step error (see C1), or nil on full success (see C2) — a run with
a failing compensation has no Result to carry one. -/
theorem C5_comp_error_escalates (env : CoordEnv) (sg : Saga)
    (aF cF : Nat → GoFunc) (k j : Nat) (e ec : GoErr)
    (Hstore : ∀ ls l, env.logStore ls l = none)
    (Hlen : k < sg.steps.length)
    (Hgood : ∀ i < k, StepRuns sg aF cF i ∧
      isReturnError ((aF i).impl [Arg.actx]) = Except.ok none)
    (Hk : StepRuns sg aF cF k)
    (He : isReturnError ((aF k).impl [Arg.actx]) = Except.ok (some e))
    (hj : j < k + 1)
    (Hcomp : ∀ i, j < i → i < k + 1 → CompOk (runR aF k) (runT cF k) i)
    (Hf : CompFails (runR aF k) (runT cF k) j ec) :
    ∃ st, Play env sg = (st, Except.error (Panic.compensationError ec)) := by
  have hT : (fwdState env sg aF cF k).toCompensate ++ [cF k] = runT cF k := by
    simp [fwdState, runT, List.range_succ]
  have hR : (fwdState env sg aF cF k).returnedValuesFromFunc ++
      [(aF k).impl [Arg.actx]] = runR aF k := by
    simp [fwdState, runR, List.range_succ]
  have hlen2 : (runT cF k).length = k + 1 := by
    simp [runT]
  obtain ⟨st2, hstep⟩ := execStep_fail_comp env aF cF k e ec j
    (fwdState env sg aF cF k) Hstore rfl Hk He
    (by rw [hT, hlen2]; exact hj)
    (by rw [hT, hR, hlen2]; exact Hcomp)
    (by rw [hT, hR]; exact Hf)
  have hsplit : List.range sg.steps.length =
      (List.range k ++ [k]) ++
        (List.range (sg.steps.length - (k + 1))).map ((k + 1) + ·) := by
    rw [← List.range_succ, ← List.range_add]
    exact congrArg List.range (by omega)
  have hloop := stepsLoop_to_k env sg aF cF k
    ((List.range (sg.steps.length - (k + 1))).map ((k + 1) + ·)) st2
    (Panic.compensationError ec) Hstore Hgood hstep
  rw [← hsplit] at hloop
  exact ⟨st2, Play_panic env sg st2 _ Hstore hloop⟩

/-- A compensation that itself fails with "rollback failed". -/
def compBad : GoFunc := ⟨1, true, fun _ => [RVal.rerr (some "rollback failed")]⟩

/-- A step whose action fails with "boom" and whose compensation fails
too. -/
def stepCompBad : Step := ⟨"s0", FuncObj.fn actBoom, FuncObj.fn compBad⟩

/-- One-step saga whose abort path hits a failing compensation. -/
def sagaCompFail : Saga := ⟨"cfail", [stepCompBad]⟩

/-- Witness for C5 on `sagaCompFail`: the failing compensation makes Play
panic with "rollback failed" instead of returning a Result. -/
theorem C5_witness :
    ∃ st, Play wEnv sagaCompFail =
      (st, Except.error (Panic.compensationError "rollback failed")) :=
  C5_comp_error_escalates wEnv sagaCompFail (fun _ => actBoom) (fun _ => compBad)
    0 0 "boom" "rollback failed"
    (fun _ _ => rfl)
    (by decide)
    (fun i hi => absurd hi (by omega))
    ⟨⟨rfl, rfl, rfl⟩, rfl⟩
    rfl
    (by decide)
    (fun i h1 h2 => absurd h1 (by omega))
    ⟨rfl, rfl⟩

end GoSaga
